import Mathlib

/-
  Verification development for the ironic-shop trade-negotiation engine
  (src/scripts/apps/ShopApplication.js).

  Modelling conventions: JavaScript numbers are rationals; the `Map`s
  keyed by item id (`playerTradeItems` / `shopTradeItems`) are association
  lists in insertion order; the asynchronous persistence calls issued by
  `executeTrade` / `#transferItem` are reified as an ordered list of
  operations together with their effect on the two actors' documents
  (the success path: every external call resolves).
-/

namespace IronicShop

/-- The five currency denominations, i.e. the fixed key set
`['pp', 'gp', 'ep', 'sp', 'cp']` iterated by the per-denomination loops
in `ShopApplication`. -/
inductive Denom
  | pp
  | gp
  | ep
  | sp
  | cp
deriving DecidableEq, Repr

/-- A currency bundle `{pp, gp, ep, sp, cp}` as produced by
`#prepareCurrency` (all five keys present, defaulting to 0). -/
structure Currency where
  pp : ℚ
  gp : ℚ
  ep : ℚ
  sp : ℚ
  cp : ℚ
deriving DecidableEq, Repr

/-- Key lookup `bundle[type]` for one of the five denomination keys. -/
def Currency.get (c : Currency) : Denom → ℚ
  | .pp => c.pp
  | .gp => c.gp
  | .ep => c.ep
  | .sp => c.sp
  | .cp => c.cp

/-- The zero bundle `{ pp: 0, gp: 0, ep: 0, sp: 0, cp: 0 }`. -/
def zeroCur : Currency := ⟨0, 0, 0, 0, 0⟩

/-- The iteration order `['pp', 'gp', 'ep', 'sp', 'cp']` of the
per-denomination loops in the source. -/
def denomList : List Denom := [.pp, .gp, .ep, .sp, .cp]

/-- `#calculateTotalGold(currency)` (ShopApplication.js lines 161-167):
total gold value of a currency bundle. -/
def calculateTotalGold (currency : Currency) : ℚ :=
  currency.pp * 10 +
  currency.gp +
  currency.ep * 0.5 +
  currency.sp * 0.1 +
  currency.cp * 0.01

/-- ASCII lowering of one character, modelling what
`String.prototype.toLowerCase()` does on the ASCII range (denomination
codes are ASCII). -/
def toLowerAscii (c : Char) : Char :=
  if 65 ≤ c.toNat ∧ c.toNat ≤ 90 then Char.ofNat (c.toNat + 32) else c

/-- `s.toLowerCase()` on ASCII strings. -/
def lowercase (s : String) : String := ⟨s.data.map toLowerAscii⟩

/-- The effective denomination string of `(denom || 'gp')` in `#toGold`:
`none` models a missing (undefined) argument, which takes the `'gp'`
default parameter; the empty string is falsy in JavaScript and likewise
falls back to `'gp'`. -/
def effDenom : Option String → String
  | none => "gp"
  | some s => if s = "" then "gp" else s

/-- `#toGold(amount, denom = 'gp')` (ShopApplication.js lines 170-179):
converts a single price in denomination `denom` into gold; any
denomination other than the five known ones falls through to the
`default` case and returns the amount unchanged. -/
def toGold (amount : ℚ) (denom : Option String) : ℚ :=
  let d := lowercase (effDenom denom)
  if d = "pp" then amount * 10
  else if d = "gp" then amount
  else if d = "ep" then amount * 0.5
  else if d = "sp" then amount * 0.1
  else if d = "cp" then amount * 0.01
  else amount

/-- An item document snapshot: identity, display data, the canonical
compendium origin `flags.core.sourceId` (absent or possibly empty),
`system.quantity` and the price `(value, denomination)` pair read from
the configured `itemPricePath` / `system.price.denomination`. -/
structure Item where
  id : String
  name : String
  type : String
  sourceId : Option String
  quantity : ℚ
  price : ℚ
  denom : Option String
deriving DecidableEq, Repr

/-- One entry `{ item, quantity }` of a trade `Map`. -/
structure TradeEntry where
  item : Item
  quantity : ℚ
deriving DecidableEq, Repr

/-- The negotiation state of a `ShopApplication` instance: the two trade
item maps and the two offered currency bundles. -/
structure ShopState where
  playerTradeItems : List TradeEntry
  shopTradeItems : List TradeEntry
  playerTradeCurrency : Currency
  shopTradeCurrency : Currency
deriving DecidableEq, Repr

/-- The reset negotiation state after `executeTrade` succeeds or
`clearTrade` runs: both maps cleared, both bundles zeroed. -/
def ShopState.cleared : ShopState := ⟨[], [], zeroCur, zeroCur⟩

/-- `#calculateTradeBalance` (ShopApplication.js lines 256-275).  Each
side's offer value starts from `#calculateTotalGold` of its offered
currency and then accumulates `price * quantity` over its trade map,
where `price` is the raw number read from the item's price path. -/
def calculateTradeBalance (st : ShopState) : ℚ :=
  let playerOfferValue :=
    st.playerTradeItems.foldl (fun acc e => acc + e.item.price * e.quantity)
      (calculateTotalGold st.playerTradeCurrency)
  let shopOfferValue :=
    st.shopTradeItems.foldl (fun acc e => acc + e.item.price * e.quantity)
      (calculateTotalGold st.shopTradeCurrency)
  shopOfferValue - playerOfferValue

/-- The `hasPlayerOffer` condition of `#canConfirmTrade` (line 282). -/
def hasPlayerOffer (st : ShopState) : Bool :=
  !st.playerTradeItems.isEmpty || decide (0 < calculateTotalGold st.playerTradeCurrency)

/-- The `hasShopOffer` condition of `#canConfirmTrade` (line 283). -/
def hasShopOffer (st : ShopState) : Bool :=
  !st.shopTradeItems.isEmpty || decide (0 < calculateTotalGold st.shopTradeCurrency)

/-- The per-denomination loop of `#canConfirmTrade` (lines 290-293):
true when some denomination is offered beyond what its side holds. -/
def exceedsHeld (st : ShopState) (playerCurrency shopCurrency : Currency) : Bool :=
  denomList.any fun t =>
    decide (playerCurrency.get t < st.playerTradeCurrency.get t) ||
    decide (shopCurrency.get t < st.shopTradeCurrency.get t)

/-- `#canConfirmTrade(playerCurrency, shopCurrency)` (ShopApplication.js
lines 280-301); the `allowNegativeGold` setting is passed explicitly. -/
def canConfirmTrade (st : ShopState) (playerCurrency shopCurrency : Currency)
    (allowNegative : Bool) : Bool :=
  if !hasPlayerOffer st && !hasShopOffer st then false
  else if !allowNegative && exceedsHeld st playerCurrency shopCurrency then false
  else if 0 < calculateTradeBalance st then false
  else true

/-- The two parties of a negotiation. -/
inductive Side
  | player
  | shop
deriving DecidableEq, Repr

/-- One persistence call issued during a commit: a whole-bundle currency
update (`actor.update` of the five `system.currency.*` paths), an item
quantity update (`item.update`/`existingItem.update` of
`system.quantity`), an embedded-document creation
(`createEmbeddedDocuments('Item', ...)`), or an item deletion
(`item.delete()`). -/
inductive Op
  | updateCurrency (side : Side) (c : Currency)
  | updateQuantity (side : Side) (itemId : String) (newQty : ℚ)
  | createEmbedded (side : Side) (data : Item)
  | deleteEmbedded (side : Side) (itemId : String)
deriving DecidableEq, Repr

/-- The side of the actor an operation is issued against. -/
def Op.side : Op → Side
  | .updateCurrency s _ => s
  | .updateQuantity s _ _ => s
  | .createEmbedded s _ => s
  | .deleteEmbedded s _ => s

/-- Whether an operation is a currency update. -/
def Op.isCurrency : Op → Bool
  | .updateCurrency _ _ => true
  | _ => false

/-- An actor document as the engine sees it: its currency bundle and its
embedded item collection. -/
structure Actor where
  currency : Currency
  items : List Item
deriving DecidableEq, Repr

/-- The two actor documents a `ShopApplication` trades between. -/
structure World where
  playerActor : Actor
  shopActor : Actor
deriving DecidableEq, Repr

/-- The item collection of one side. -/
def World.itemsOf (w : World) : Side → List Item
  | .player => w.playerActor.items
  | .shop => w.shopActor.items

/-- Replace the item collection of one side. -/
def World.setItems (w : World) : Side → List Item → World
  | .player, items => { w with playerActor := { w.playerActor with items := items } }
  | .shop, items => { w with shopActor := { w.shopActor with items := items } }

/-- Replace the currency bundle of one side. -/
def World.setCurrency (w : World) : Side → Currency → World
  | .player, c => { w with playerActor := { w.playerActor with currency := c } }
  | .shop, c => { w with shopActor := { w.shopActor with currency := c } }

/-- Effect of one resolved persistence call on the two actor documents. -/
def World.applyOp (w : World) : Op → World
  | .updateCurrency s c => w.setCurrency s c
  | .updateQuantity s itemId q =>
      w.setItems s ((w.itemsOf s).map fun i =>
        if i.id == itemId then { i with quantity := q } else i)
  | .createEmbedded s data => w.setItems s (w.itemsOf s ++ [data])
  | .deleteEmbedded s itemId =>
      w.setItems s ((w.itemsOf s).filter fun i => !(i.id == itemId))

/-- The stacking-target lookup of `#transferItem` (ShopApplication.js
lines 710-726): first by `flags.core.sourceId` when the source item has
a truthy one, then by exact name-and-type match. -/
def stackTarget (item : Item) (toItems : List Item) : Option Item :=
  let bySourceId : Option Item :=
    match item.sourceId with
    | some sid => if sid = "" then none else toItems.find? fun i => i.sourceId == some sid
    | none => none
  match bySourceId with
  | some existingItem => some existingItem
  | none => toItems.find? fun i => i.name == item.name && i.type == item.type

/-- `#transferItem(item, fromActor, toActor, quantity)` (ShopApplication.js
lines 709-748) as the ordered pair of persistence calls it awaits: first
the destination call (stack onto the target, or create a clone whose
`_id` is stripped — modelled as the empty id — with its quantity set to
the transferred amount), then the source call (delete the item when its
current quantity does not exceed the transferred amount, else persist
the reduced quantity). -/
def transferItem (item : Item) (fromSide toSide : Side) (toItems : List Item)
    (quantity : ℚ) : List Op :=
  let destOp :=
    match stackTarget item toItems with
    | some existingItem =>
        Op.updateQuantity toSide existingItem.id (existingItem.quantity + quantity)
    | none => Op.createEmbedded toSide { item with id := "", quantity := quantity }
  let srcOp :=
    if item.quantity ≤ quantity then Op.deleteEmbedded fromSide item.id
    else Op.updateQuantity fromSide item.id (item.quantity - quantity)
  [destOp, srcOp]

/-- One transfer loop of `executeTrade` (lines 663-671): transfer each
collected entry in order, awaiting each persistence call, so later
transfers see the destination inventory produced by earlier ones.  The
item's current quantity is re-read from its owning document. -/
def runTransfers (fromSide toSide : Side) :
    List TradeEntry → World × List Op → World × List Op
  | [], acc => acc
  | e :: rest, (w, ops) =>
      let current := ((w.itemsOf fromSide).find? fun i => i.id == e.item.id).getD e.item
      let tops := transferItem current fromSide toSide (w.itemsOf toSide) e.quantity
      runTransfers fromSide toSide rest (tops.foldl World.applyOp w, ops ++ tops)

/-- The outcome of a successful `executeTrade` run: the two freshly
computed currency bundles, the ordered list of persistence calls issued,
the resulting actor documents, and the reset negotiation state. -/
structure TradeResult where
  newPlayerCurrency : Currency
  newShopCurrency : Currency
  ops : List Op
  world : World
  finalState : ShopState
deriving Repr

/-- `executeTrade()` (ShopApplication.js lines 619-689), success path:
read both parties' held currency, compute `held - offered + received`
per denomination, persist both bundles (player first, then shop),
transfer the shop's offered items to the player and then the player's
offered items to the shop, and finally reset the trade state. -/
def executeTrade (st : ShopState) (w : World) : TradeResult :=
  let playerCurrency := w.playerActor.currency
  let shopCurrency := w.shopActor.currency
  let newPlayerCurrency : Currency :=
    ⟨playerCurrency.pp - st.playerTradeCurrency.pp + st.shopTradeCurrency.pp,
     playerCurrency.gp - st.playerTradeCurrency.gp + st.shopTradeCurrency.gp,
     playerCurrency.ep - st.playerTradeCurrency.ep + st.shopTradeCurrency.ep,
     playerCurrency.sp - st.playerTradeCurrency.sp + st.shopTradeCurrency.sp,
     playerCurrency.cp - st.playerTradeCurrency.cp + st.shopTradeCurrency.cp⟩
  let newShopCurrency : Currency :=
    ⟨shopCurrency.pp - st.shopTradeCurrency.pp + st.playerTradeCurrency.pp,
     shopCurrency.gp - st.shopTradeCurrency.gp + st.playerTradeCurrency.gp,
     shopCurrency.ep - st.shopTradeCurrency.ep + st.playerTradeCurrency.ep,
     shopCurrency.sp - st.shopTradeCurrency.sp + st.playerTradeCurrency.sp,
     shopCurrency.cp - st.shopTradeCurrency.cp + st.playerTradeCurrency.cp⟩
  let currencyOps : List Op :=
    [Op.updateCurrency .player newPlayerCurrency, Op.updateCurrency .shop newShopCurrency]
  let w1 := currencyOps.foldl World.applyOp w
  let acc1 := runTransfers .shop .player st.shopTradeItems (w1, currencyOps)
  let acc2 := runTransfers .player .shop st.playerTradeItems acc1
  { newPlayerCurrency := newPlayerCurrency
    newShopCurrency := newShopCurrency
    ops := acc2.2
    world := acc2.1
    finalState := ShopState.cleared }

/-- The basket mutation of `#onInventoryItemClick` (ShopApplication.js
lines 432-462): a click on an item already in the trade map removes it;
otherwise the item is added with quantity 1, or — when more than one is
available — with the quantity resolved by `#promptQuantity`, where a
cancelled (`none`) or non-positive resolution leaves the map unchanged. -/
def toggleItem (tradeMap : List TradeEntry) (item : Item)
    (promptResult : Option ℚ) : List TradeEntry :=
  if tradeMap.any fun e => e.item.id == item.id then
    tradeMap.filter fun e => !(e.item.id == item.id)
  else
    let maxQuantity := item.quantity
    if 1 < maxQuantity then
      match promptResult with
      | none => tradeMap
      | some q => if q ≤ 0 then tradeMap else tradeMap ++ [⟨item, q⟩]
    else
      tradeMap ++ [⟨item, 1⟩]

/-- The spec's `totalNormalizedValue()` of one basket, following the
spec's words: `CurrencyLedger.normalize(currency) +
sum(itemPrice_normalized * quantity for each entry)`, the item price
being normalized through `toBaseUnit` (= `#toGold`) by its
denomination.  Stated for comparison with `#calculateTradeBalance`,
which does not normalize item prices. -/
def totalNormalizedValueSpec (currency : Currency) (entries : List TradeEntry) : ℚ :=
  calculateTotalGold currency +
    (entries.map fun e => toGold e.item.price e.item.denom * e.quantity).sum

/-- The spec's `balance()`: shop basket total minus player basket total,
over spec-normalized basket values. -/
def balanceSpec (st : ShopState) : ℚ :=
  totalNormalizedValueSpec st.shopTradeCurrency st.shopTradeItems -
    totalNormalizedValueSpec st.playerTradeCurrency st.playerTradeItems

/-- A basket total in the compositional shape the spec gives it, but
with the raw (un-normalized) item price the code actually uses. -/
def totalOfferValueRaw (currency : Currency) (entries : List TradeEntry) : ℚ :=
  calculateTotalGold currency +
    (entries.map fun e => e.item.price * e.quantity).sum

/-- C8: for every currency bundle `b`, the code's normalize
(`#calculateTotalGold`) satisfies
`normalize(b) = 10*pp + gp + 0.5*ep + 0.1*sp + 0.01*cp`; being a plain
function of the bundle, it has no side effects. -/
theorem calculateTotalGold_formula (b : Currency) :
    calculateTotalGold b =
      10 * b.pp + b.gp + (1 / 2) * b.ep + (1 / 10) * b.sp + (1 / 100) * b.cp := by
  unfold calculateTotalGold
  norm_num
  ring

/-- C9: `#toGold` multiplies a value by the conversion rate of its
denomination (pp=10, gp=1, ep=0.5, sp=0.1, cp=0.01), and every
denomination outside the five known codes — as well as a missing one —
leaves the value unchanged (the lenient fallback-as-gp policy). -/
theorem toGold_conversion (v : ℚ) :
    toGold v (some "pp") = v * 10 ∧
    toGold v (some "gp") = v ∧
    toGold v (some "ep") = v * (1 / 2) ∧
    toGold v (some "sp") = v * (1 / 10) ∧
    toGold v (some "cp") = v * (1 / 100) ∧
    toGold v none = v ∧
    ∀ d : String, lowercase d ∉ (["pp", "gp", "ep", "sp", "cp"] : List String) →
      toGold v (some d) = v := by
  refine ⟨?_, ?_, ?_, ?_, ?_, ?_, ?_⟩
  · simp [toGold, (by decide : lowercase (effDenom (some "pp")) = "pp")]
  · simp [toGold, (by decide : lowercase (effDenom (some "gp")) = "gp")]
  · simp [toGold, (by decide : lowercase (effDenom (some "ep")) = "ep")]
    try norm_num
  · simp [toGold, (by decide : lowercase (effDenom (some "sp")) = "sp")]
    try norm_num
  · simp [toGold, (by decide : lowercase (effDenom (some "cp")) = "cp")]
    try norm_num
  · simp [toGold, (by decide : lowercase (effDenom none) = "gp")]
  · intro d hd
    by_cases hde : d = ""
    · subst hde
      simp [toGold, (by decide : lowercase (effDenom (some "")) = "gp")]
    · simp only [List.mem_cons, List.mem_singleton, not_or] at hd
      obtain ⟨h1, h2, h3, h4, h5⟩ := hd
      simp [toGold, effDenom, if_neg hde, h1, h2, h3, h4, h5]

/-- Witness for C9 at a concrete unknown denomination. -/
theorem toGold_conversion_witness :
    lowercase "zz" ∉ (["pp", "gp", "ep", "sp", "cp"] : List String) ∧
    toGold 7 (some "zz") = 7 :=
  ⟨by decide, (toGold_conversion 7).2.2.2.2.2.2 "zz" (by decide)⟩

/-- C10: the currency settlement of `executeTrade` conserves the
two-party total of every denomination: new player count plus new shop
count equals the two held counts before the commit. -/
theorem executeTrade_conserves_currency (st : ShopState) (w : World) (d : Denom) :
    (executeTrade st w).newPlayerCurrency.get d + (executeTrade st w).newShopCurrency.get d =
      w.playerActor.currency.get d + w.shopActor.currency.get d := by
  cases d <;> simp [executeTrade, Currency.get] <;> ring

/-- C1 counterexample: for a negotiation in which the shop offers one
item priced `1 pp`, `#calculateTradeBalance` returns 1 (the raw price)
while the spec's normalized balance is 10, so the balance is not the
difference of the baskets' `toBaseUnit`-normalized totals. -/
theorem tradeBalance_not_normalized_cex :
    calculateTradeBalance
        ⟨[], [⟨⟨"i1", "Crown", "loot", none, 1, 1, some "pp"⟩, 1⟩], zeroCur, zeroCur⟩ ≠
      balanceSpec
        ⟨[], [⟨⟨"i1", "Crown", "loot", none, 1, 1, some "pp"⟩, 1⟩], zeroCur, zeroCur⟩ := by
  have h : lowercase (effDenom (some "pp")) = "pp" := by decide
  simp [calculateTradeBalance, balanceSpec, totalNormalizedValueSpec, toGold, h,
    calculateTotalGold, zeroCur]
  try norm_num

/-- C1 amended: the trade balance equals the shop basket's total minus
the player basket's total, where each basket total is the normalized
value of its offered currency bundle plus, for every offered item entry,
the raw price number times the quantity offered — the item price is used
as read, without `toBaseUnit` denomination conversion; positive balance
means the player receives more value than given. -/
theorem tradeBalance_eq_raw_totals (st : ShopState) :
    calculateTradeBalance st =
      totalOfferValueRaw st.shopTradeCurrency st.shopTradeItems -
        totalOfferValueRaw st.playerTradeCurrency st.playerTradeItems := by
  have key : ∀ (l : List TradeEntry) (init : ℚ),
      l.foldl (fun acc e => acc + e.item.price * e.quantity) init =
        init + (l.map fun e => e.item.price * e.quantity).sum := by
    intro l
    induction l with
    | nil => simp
    | cons e rest ih =>
        intro init
        simp only [List.foldl_cons, List.map_cons, List.sum_cons, ih]
        ring
  simp only [calculateTradeBalance, totalOfferValueRaw, key]

/-- Characterization of `#canConfirmTrade` shared by several results:
it confirms exactly when some side offers something, the per-denomination
affordability check passes (or is disabled), and the code's trade
balance is non-positive. -/
theorem canConfirm_iff (st : ShopState) (pc sc : Currency) (an : Bool) :
    canConfirmTrade st pc sc an = true ↔
      ((hasPlayerOffer st || hasShopOffer st) = true ∧
        (an || !exceedsHeld st pc sc) = true ∧
        calculateTradeBalance st ≤ 0) := by
  unfold canConfirmTrade
  split_ifs with h1 h2 h3
  · simp only [false_iff]
    rintro ⟨hOffer, -, -⟩
    simp only [Bool.and_eq_true, Bool.not_eq_true'] at h1
    simp [h1.1, h1.2] at hOffer
  · simp only [false_iff]
    rintro ⟨-, hAfford, -⟩
    simp only [Bool.and_eq_true, Bool.not_eq_true'] at h2
    simp [h2.1, h2.2] at hAfford
  · simp only [false_iff]
    rintro ⟨-, -, hbal⟩
    exact absurd hbal (not_le.mpr h3)
  · simp only [true_iff]
    refine ⟨?_, ?_, not_lt.mp h3⟩
    · rcases hP : hasPlayerOffer st <;> rcases hS : hasShopOffer st <;> simp_all
    · rcases han : an <;> rcases hE : exceedsHeld st pc sc <;> simp_all

/-- C3 counterexample: the shop offers one item priced `1 pp`
(spec-normalized value 10) while the player offers 5 gp they hold; the
spec's balance is +5 > 0, yet `#canConfirmTrade` confirms, because the
code's balance uses the raw price 1 and comes out at -4. -/
theorem canConfirm_specBalance_cex :
    0 < balanceSpec ⟨[], [⟨⟨"i1", "Crown", "loot", none, 1, 1, some "pp"⟩, 1⟩],
        ⟨0, 5, 0, 0, 0⟩, zeroCur⟩ ∧
    canConfirmTrade ⟨[], [⟨⟨"i1", "Crown", "loot", none, 1, 1, some "pp"⟩, 1⟩],
        ⟨0, 5, 0, 0, 0⟩, zeroCur⟩ ⟨0, 5, 0, 0, 0⟩ zeroCur false = true := by
  constructor
  · have h : lowercase (effDenom (some "pp")) = "pp" := by decide
    simp [balanceSpec, totalNormalizedValueSpec, toGold, h, calculateTotalGold, zeroCur]
    try norm_num
  · refine (canConfirm_iff _ _ _ _).mpr ⟨?_, ?_, ?_⟩
    · simp [hasPlayerOffer, calculateTotalGold]
      try norm_num
    · have hE : exceedsHeld ⟨[], [⟨⟨"i1", "Crown", "loot", none, 1, 1, some "pp"⟩, 1⟩],
          ⟨0, 5, 0, 0, 0⟩, zeroCur⟩ ⟨0, 5, 0, 0, 0⟩ zeroCur = false := by
        simp [exceedsHeld, denomList, Currency.get, zeroCur]
      simp [hE]
    · simp [calculateTradeBalance, calculateTotalGold, zeroCur]
      try norm_num

/-- C3 amended: the confirmation gate uses the code's balance
(`#calculateTradeBalance`, raw item prices): whenever that balance is
strictly positive, canConfirm is false; when it is zero or negative the
balance test does not block — canConfirm is then decided solely by the
non-empty-offer and per-denomination affordability checks. -/
theorem canConfirm_balance_rule (st : ShopState) (pc sc : Currency) (an : Bool) :
    (0 < calculateTradeBalance st → canConfirmTrade st pc sc an = false) ∧
    (calculateTradeBalance st ≤ 0 →
      canConfirmTrade st pc sc an =
        ((hasPlayerOffer st || hasShopOffer st) && (an || !exceedsHeld st pc sc))) := by
  constructor
  · intro hb
    rcases hc : canConfirmTrade st pc sc an with _ | _
    · rfl
    · exact absurd ((canConfirm_iff st pc sc an).mp hc).2.2 (not_le.mpr hb)
  · intro hb
    rw [Bool.eq_iff_iff, canConfirm_iff]
    simp [Bool.and_eq_true, hb]

/-- Witness for C3 at concrete inputs: a positive-balance state is
refused, and a non-positive-balance state is decided by the remaining
checks alone. -/
theorem canConfirm_balance_rule_witness :
    canConfirmTrade ⟨[], [⟨⟨"i2", "Gem", "loot", none, 1, 100, some "gp"⟩, 1⟩],
        zeroCur, zeroCur⟩ zeroCur zeroCur true = false ∧
    canConfirmTrade ⟨[], [], ⟨0, 5, 0, 0, 0⟩, zeroCur⟩ ⟨0, 5, 0, 0, 0⟩ zeroCur false =
      ((hasPlayerOffer ⟨[], [], ⟨0, 5, 0, 0, 0⟩, zeroCur⟩ ||
          hasShopOffer ⟨[], [], ⟨0, 5, 0, 0, 0⟩, zeroCur⟩) &&
        (false || !exceedsHeld ⟨[], [], ⟨0, 5, 0, 0, 0⟩, zeroCur⟩
            ⟨0, 5, 0, 0, 0⟩ zeroCur)) :=
  ⟨(canConfirm_balance_rule _ _ _ _).1
      (by norm_num [calculateTradeBalance, calculateTotalGold, zeroCur]),
   (canConfirm_balance_rule _ _ _ _).2
      (by norm_num [calculateTradeBalance, calculateTotalGold, zeroCur])⟩

/-- C4: with allowNegative false, whenever some denomination is offered
beyond what its side holds, `#canConfirmTrade` refuses: the
affordability check is per denomination, regardless of the other
denominations or the overall value. -/
theorem canConfirm_per_denom_guard (st : ShopState) (pc sc : Currency) (d : Denom)
    (h : pc.get d < st.playerTradeCurrency.get d ∨ sc.get d < st.shopTradeCurrency.get d) :
    canConfirmTrade st pc sc false = false := by
  have hE : exceedsHeld st pc sc = true := by
    unfold exceedsHeld
    rw [List.any_eq_true]
    refine ⟨d, by cases d <;> simp [denomList], ?_⟩
    rcases h with h | h <;> simp [h]
  rcases hc : canConfirmTrade st pc sc false with _ | _
  · rfl
  · have h2 := ((canConfirm_iff st pc sc false).mp hc).2.1
    rw [hE] at h2
    simp at h2

/-- Witness for C4: the player holds 5 gp but offers 10 gp, so the
trade is not confirmable. -/
theorem canConfirm_per_denom_guard_witness :
    canConfirmTrade ⟨[], [], ⟨0, 10, 0, 0, 0⟩, zeroCur⟩ ⟨0, 5, 0, 0, 0⟩ zeroCur
      false = false :=
  canConfirm_per_denom_guard _ _ _ Denom.gp (Or.inl (by norm_num [Currency.get, zeroCur]))

/-- Unfolding of `#transferItem` into its two ordered persistence
calls. -/
theorem transferItem_eq (item : Item) (fs ts : Side) (toItems : List Item) (q : ℚ) :
    transferItem item fs ts toItems q =
      [(match stackTarget item toItems with
        | some existingItem =>
            Op.updateQuantity ts existingItem.id (existingItem.quantity + q)
        | none => Op.createEmbedded ts { item with id := "", quantity := q }),
       (if item.quantity ≤ q then Op.deleteEmbedded fs item.id
        else Op.updateQuantity fs item.id (item.quantity - q))] := rfl

/-- Item-level operations leave both parties' currency untouched. -/
theorem applyOp_preserves_currency (w : World) (op : Op) (h : op.isCurrency = false) :
    (w.applyOp op).playerActor.currency = w.playerActor.currency ∧
    (w.applyOp op).shopActor.currency = w.shopActor.currency := by
  cases op with
  | updateCurrency s c => simp [Op.isCurrency] at h
  | updateQuantity s itemId q => cases s <;> simp [World.applyOp, World.setItems]
  | createEmbedded s data => cases s <;> simp [World.applyOp, World.setItems]
  | deleteEmbedded s itemId => cases s <;> simp [World.applyOp, World.setItems]

/-- Every persistence call of `#transferItem` is an item operation, not
a currency update. -/
theorem transferItem_not_currency (item : Item) (fs ts : Side) (toItems : List Item)
    (q : ℚ) : ∀ op ∈ transferItem item fs ts toItems q, op.isCurrency = false := by
  intro op hop
  rw [transferItem_eq] at hop
  have hsrc : (if item.quantity ≤ q then Op.deleteEmbedded fs item.id
      else Op.updateQuantity fs item.id (item.quantity - q)).isCurrency = false := by
    split <;> rfl
  have hdest : (match stackTarget item toItems with
      | some existingItem =>
          Op.updateQuantity ts existingItem.id (existingItem.quantity + q)
      | none => Op.createEmbedded ts { item with id := "", quantity := q }).isCurrency
        = false := by
    rcases stackTarget item toItems with _ | e <;> rfl
  simp only [List.mem_cons, List.not_mem_nil, or_false] at hop
  rcases hop with rfl | rfl
  · exact hdest
  · exact hsrc

/-- Folding a list of item-level operations over a world leaves both
parties' currency untouched. -/
theorem foldl_applyOp_preserves_currency (ops : List Op) :
    ∀ w : World, (∀ op ∈ ops, op.isCurrency = false) →
      ((ops.foldl World.applyOp w).playerActor.currency = w.playerActor.currency ∧
       (ops.foldl World.applyOp w).shopActor.currency = w.shopActor.currency) := by
  induction ops with
  | nil => intro w _; exact ⟨rfl, rfl⟩
  | cons op rest ih =>
      intro w h
      have h1 := applyOp_preserves_currency w op (h op (List.mem_cons_self _ _))
      have h2 := ih (w.applyOp op) fun o ho => h o (List.mem_cons_of_mem _ ho)
      simp only [List.foldl_cons]
      exact ⟨h2.1.trans h1.1, h2.2.trans h1.2⟩

/-- The item-transfer loops never touch either party's currency. -/
theorem runTransfers_preserves_currency (fs ts : Side) (entries : List TradeEntry) :
    ∀ acc : World × List Op,
      ((runTransfers fs ts entries acc).1.playerActor.currency =
          acc.1.playerActor.currency ∧
       (runTransfers fs ts entries acc).1.shopActor.currency =
          acc.1.shopActor.currency) := by
  induction entries with
  | nil => intro acc; obtain ⟨w, ops⟩ := acc; exact ⟨rfl, rfl⟩
  | cons e rest ih =>
      intro acc
      obtain ⟨w, ops⟩ := acc
      have hops := transferItem_not_currency
        (((w.itemsOf fs).find? fun i => i.id == e.item.id).getD e.item)
        fs ts (w.itemsOf ts) e.quantity
      have hfold := foldl_applyOp_preserves_currency _ w hops
      have hrec := ih
        (((transferItem (((w.itemsOf fs).find? fun i => i.id == e.item.id).getD e.item)
            fs ts (w.itemsOf ts) e.quantity).foldl World.applyOp w),
         ops ++ transferItem (((w.itemsOf fs).find? fun i => i.id == e.item.id).getD e.item)
            fs ts (w.itemsOf ts) e.quantity)
      simp only [runTransfers]
      exact ⟨hrec.1.trans hfold.1, hrec.2.trans hfold.2⟩

/-- The currency bundles `executeTrade` persists are exactly the
bundles its final world carries: the item transfers after the two
currency updates do not disturb them. -/
theorem executeTrade_world_currency (st : ShopState) (w : World) :
    (executeTrade st w).world.playerActor.currency = (executeTrade st w).newPlayerCurrency ∧
    (executeTrade st w).world.shopActor.currency = (executeTrade st w).newShopCurrency := by
  simp only [executeTrade]
  constructor
  · exact ((runTransfers_preserves_currency _ _ _ _).1.trans
      (runTransfers_preserves_currency _ _ _ _).1).trans rfl
  · exact ((runTransfers_preserves_currency _ _ _ _).2.trans
      (runTransfers_preserves_currency _ _ _ _).2).trans rfl

/-- C5: on a successful commit each party's persisted currency count,
per denomination, is its held count at commit time minus what it
offered plus what the other side offered; afterwards both baskets
(items and currency, both sides) are reset to empty. -/
theorem executeTrade_settlement (st : ShopState) (w : World) (d : Denom) :
    ((executeTrade st w).world.playerActor.currency.get d =
        w.playerActor.currency.get d - st.playerTradeCurrency.get d +
          st.shopTradeCurrency.get d) ∧
    ((executeTrade st w).world.shopActor.currency.get d =
        w.shopActor.currency.get d - st.shopTradeCurrency.get d +
          st.playerTradeCurrency.get d) ∧
    (executeTrade st w).finalState = ShopState.cleared := by
  obtain ⟨hp, hs⟩ := executeTrade_world_currency st w
  refine ⟨?_, ?_, rfl⟩
  · rw [hp]; cases d <;> simp [executeTrade, Currency.get]
  · rw [hs]; cases d <;> simp [executeTrade, Currency.get]

/-- The transfer loops only append to the already-issued operation
list. -/
theorem runTransfers_ops_extend (fs ts : Side) (entries : List TradeEntry) :
    ∀ acc : World × List Op, ∃ l, (runTransfers fs ts entries acc).2 = acc.2 ++ l := by
  induction entries with
  | nil =>
      intro acc
      obtain ⟨w, ops⟩ := acc
      exact ⟨[], by simp [runTransfers]⟩
  | cons e rest ih =>
      intro acc
      obtain ⟨w, ops⟩ := acc
      obtain ⟨l, hl⟩ := ih
        (((transferItem (((w.itemsOf fs).find? fun i => i.id == e.item.id).getD e.item)
            fs ts (w.itemsOf ts) e.quantity).foldl World.applyOp w),
         ops ++ transferItem (((w.itemsOf fs).find? fun i => i.id == e.item.id).getD e.item)
            fs ts (w.itemsOf ts) e.quantity)
      refine ⟨transferItem (((w.itemsOf fs).find? fun i => i.id == e.item.id).getD e.item)
          fs ts (w.itemsOf ts) e.quantity ++ l, ?_⟩
      simp only [runTransfers]
      rw [hl]
      simp [List.append_assoc]

/-- C2 counterexample: the shop offers 100 gp it does not hold (and the
player offers nothing), so canConfirm is false; invoking executeTrade
anyway issues persistence operations and changes the player's held
currency — the exchange is performed, not refused. -/
theorem executeTrade_no_refusal_cex :
    canConfirmTrade ⟨[], [], zeroCur, ⟨0, 100, 0, 0, 0⟩⟩ zeroCur zeroCur false = false ∧
    (executeTrade ⟨[], [], zeroCur, ⟨0, 100, 0, 0, 0⟩⟩
        ⟨⟨zeroCur, []⟩, ⟨zeroCur, []⟩⟩).ops ≠ [] ∧
    (executeTrade ⟨[], [], zeroCur, ⟨0, 100, 0, 0, 0⟩⟩
        ⟨⟨zeroCur, []⟩, ⟨zeroCur, []⟩⟩).world.playerActor.currency ≠ zeroCur := by
  refine ⟨?_, ?_, ?_⟩
  · have hE : exceedsHeld ⟨[], [], zeroCur, ⟨0, 100, 0, 0, 0⟩⟩ zeroCur zeroCur = true := by
      simp [exceedsHeld, denomList, Currency.get, zeroCur]
      try norm_num
    rcases hc : canConfirmTrade ⟨[], [], zeroCur, ⟨0, 100, 0, 0, 0⟩⟩ zeroCur zeroCur false
      with _ | _
    · rfl
    · have h2 := ((canConfirm_iff _ _ _ _).mp hc).2.1
      rw [hE] at h2
      simp at h2
  · simp [executeTrade, runTransfers]
  · simp [executeTrade, runTransfers, World.applyOp, World.setCurrency, zeroCur]
    try norm_num

/-- C2 amended: `executeTrade` performs no validation re-check: even
invoked in a state where canConfirm is false it proceeds — its first
two persistence calls are the player and shop currency updates — and it
resets both baskets; refusing such a confirm is left entirely to the UI
layer that renders the confirm control. -/
theorem executeTrade_unchecked (st : ShopState) (w : World) (an : Bool)
    (_h : canConfirmTrade st w.playerActor.currency w.shopActor.currency an = false) :
    (executeTrade st w).ops.take 2 =
      [Op.updateCurrency Side.player (executeTrade st w).newPlayerCurrency,
       Op.updateCurrency Side.shop (executeTrade st w).newShopCurrency] ∧
    (executeTrade st w).finalState = ShopState.cleared := by
  refine ⟨?_, rfl⟩
  simp only [executeTrade]
  obtain ⟨l2, hl2⟩ := runTransfers_ops_extend Side.player Side.shop st.playerTradeItems
    (runTransfers Side.shop Side.player st.shopTradeItems
      (([Op.updateCurrency Side.player
            ⟨w.playerActor.currency.pp - st.playerTradeCurrency.pp + st.shopTradeCurrency.pp,
             w.playerActor.currency.gp - st.playerTradeCurrency.gp + st.shopTradeCurrency.gp,
             w.playerActor.currency.ep - st.playerTradeCurrency.ep + st.shopTradeCurrency.ep,
             w.playerActor.currency.sp - st.playerTradeCurrency.sp + st.shopTradeCurrency.sp,
             w.playerActor.currency.cp - st.playerTradeCurrency.cp + st.shopTradeCurrency.cp⟩,
          Op.updateCurrency Side.shop
            ⟨w.shopActor.currency.pp - st.shopTradeCurrency.pp + st.playerTradeCurrency.pp,
             w.shopActor.currency.gp - st.shopTradeCurrency.gp + st.playerTradeCurrency.gp,
             w.shopActor.currency.ep - st.shopTradeCurrency.ep + st.playerTradeCurrency.ep,
             w.shopActor.currency.sp - st.shopTradeCurrency.sp + st.playerTradeCurrency.sp,
             w.shopActor.currency.cp - st.shopTradeCurrency.cp + st.playerTradeCurrency.cp⟩].foldl
          World.applyOp w),
       [Op.updateCurrency Side.player
          ⟨w.playerActor.currency.pp - st.playerTradeCurrency.pp + st.shopTradeCurrency.pp,
           w.playerActor.currency.gp - st.playerTradeCurrency.gp + st.shopTradeCurrency.gp,
           w.playerActor.currency.ep - st.playerTradeCurrency.ep + st.shopTradeCurrency.ep,
           w.playerActor.currency.sp - st.playerTradeCurrency.sp + st.shopTradeCurrency.sp,
           w.playerActor.currency.cp - st.playerTradeCurrency.cp + st.shopTradeCurrency.cp⟩,
        Op.updateCurrency Side.shop
          ⟨w.shopActor.currency.pp - st.shopTradeCurrency.pp + st.playerTradeCurrency.pp,
           w.shopActor.currency.gp - st.shopTradeCurrency.gp + st.playerTradeCurrency.gp,
           w.shopActor.currency.ep - st.shopTradeCurrency.ep + st.playerTradeCurrency.ep,
           w.shopActor.currency.sp - st.shopTradeCurrency.sp + st.playerTradeCurrency.sp,
           w.shopActor.currency.cp - st.shopTradeCurrency.cp + st.playerTradeCurrency.cp⟩]))
  rw [hl2]
  obtain ⟨l1, hl1⟩ := runTransfers_ops_extend Side.shop Side.player st.shopTradeItems _
  rw [hl1]
  simp

/-- Witness for C2 at a concrete input: both baskets empty, so
canConfirm is false, and executeTrade still issues the two currency
updates first and resets the trade state. -/
theorem executeTrade_unchecked_witness :
    (executeTrade ShopState.cleared ⟨⟨zeroCur, []⟩, ⟨zeroCur, []⟩⟩).ops.take 2 =
      [Op.updateCurrency Side.player
          (executeTrade ShopState.cleared ⟨⟨zeroCur, []⟩, ⟨zeroCur, []⟩⟩).newPlayerCurrency,
       Op.updateCurrency Side.shop
          (executeTrade ShopState.cleared ⟨⟨zeroCur, []⟩, ⟨zeroCur, []⟩⟩).newShopCurrency] ∧
    (executeTrade ShopState.cleared ⟨⟨zeroCur, []⟩, ⟨zeroCur, []⟩⟩).finalState =
      ShopState.cleared :=
  executeTrade_unchecked _ _ false
    (by simp [canConfirmTrade, hasPlayerOffer, hasShopOffer, ShopState.cleared,
      zeroCur, calculateTotalGold])

/-- An operation issued against one side leaves the other side's item
collection untouched (and currency updates touch no items at all). -/
theorem applyOp_itemsOf_other (w : World) (op : Op) (s : Side) (h : op.side ≠ s) :
    (w.applyOp op).itemsOf s = w.itemsOf s := by
  cases op with
  | updateCurrency s2 c =>
      cases s2 <;> cases s <;>
        simp_all [World.applyOp, World.setCurrency, World.itemsOf]
  | updateQuantity s2 itemId q =>
      cases s2 <;> cases s <;>
        simp_all [World.applyOp, World.setItems, World.itemsOf, Op.side]
  | createEmbedded s2 data =>
      cases s2 <;> cases s <;>
        simp_all [World.applyOp, World.setItems, World.itemsOf, Op.side]
  | deleteEmbedded s2 itemId =>
      cases s2 <;> cases s <;>
        simp_all [World.applyOp, World.setItems, World.itemsOf, Op.side]

/-- Effect of a resolved `item.delete()` on its own side. -/
theorem applyOp_delete_itemsOf (w : World) (s : Side) (itemId : String) :
    (w.applyOp (Op.deleteEmbedded s itemId)).itemsOf s =
      (w.itemsOf s).filter fun i => !(i.id == itemId) := by
  cases s <;> simp [World.applyOp, World.setItems, World.itemsOf]

/-- Effect of a resolved `system.quantity` update on its own side. -/
theorem applyOp_update_itemsOf (w : World) (s : Side) (itemId : String) (q : ℚ) :
    (w.applyOp (Op.updateQuantity s itemId q)).itemsOf s =
      (w.itemsOf s).map fun i =>
        if i.id == itemId then { i with quantity := q } else i := by
  cases s <;> simp [World.applyOp, World.setItems, World.itemsOf]

/-- C6: a transfer of quantity q first accounts for the moved quantity
at the destination (a stack-or-create call against the destination
side, never a deletion) and only then touches the source: when q is at
least the source item's current quantity the source entry is deleted
entirely, and when q is strictly smaller the source entry persists with
its quantity reduced by exactly q. -/
theorem transferItem_source_after_dest (w : World) (item : Item) (fs ts : Side) (q : ℚ)
    (hne : fs ≠ ts) :
    (∃ destOp, Op.side destOp = ts ∧ (∀ s i, destOp ≠ Op.deleteEmbedded s i) ∧
        transferItem item fs ts (w.itemsOf ts) q =
          [destOp,
           if item.quantity ≤ q then Op.deleteEmbedded fs item.id
           else Op.updateQuantity fs item.id (item.quantity - q)]) ∧
    ((transferItem item fs ts (w.itemsOf ts) q).foldl World.applyOp w).itemsOf fs =
      (if item.quantity ≤ q then (w.itemsOf fs).filter fun i => !(i.id == item.id)
       else (w.itemsOf fs).map fun i =>
         if i.id == item.id then { i with quantity := item.quantity - q } else i) := by
  constructor
  · rcases hT : stackTarget item (w.itemsOf ts) with _ | e
    · refine ⟨Op.createEmbedded ts { item with id := "", quantity := q }, rfl, ?_, ?_⟩
      · intro s i
        simp
      · rw [transferItem_eq, hT]
    · refine ⟨Op.updateQuantity ts e.id (e.quantity + q), rfl, ?_, ?_⟩
      · intro s i
        simp
      · rw [transferItem_eq, hT]
  · rw [transferItem_eq]
    rcases hT : stackTarget item (w.itemsOf ts) with _ | e <;>
      by_cases hq : item.quantity ≤ q <;>
        simp only [hT, hq, if_pos, if_neg, not_false_iff, List.foldl_cons, List.foldl_nil]
    · rw [applyOp_delete_itemsOf, applyOp_itemsOf_other _ _ _ (Ne.symm hne)]
    · rw [applyOp_update_itemsOf, applyOp_itemsOf_other _ _ _ (Ne.symm hne)]
    · rw [applyOp_delete_itemsOf, applyOp_itemsOf_other _ _ _ (Ne.symm hne)]
    · rw [applyOp_update_itemsOf, applyOp_itemsOf_other _ _ _ (Ne.symm hne)]

/-- Witness for C6: the shop holds 5 Rope and transfers 2 to the
player, whose inventory is empty. -/
theorem transferItem_source_after_dest_witness :
    (∃ destOp, Op.side destOp = Side.player ∧ (∀ s i, destOp ≠ Op.deleteEmbedded s i) ∧
        transferItem ⟨"i1", "Rope", "loot", none, 5, 1, some "gp"⟩ Side.shop Side.player
            ((⟨⟨zeroCur, []⟩, ⟨zeroCur, [⟨"i1", "Rope", "loot", none, 5, 1, some "gp"⟩]⟩⟩ :
              World).itemsOf Side.player) 2 =
          [destOp,
           if (⟨"i1", "Rope", "loot", none, 5, 1, some "gp"⟩ : Item).quantity ≤ 2 then
             Op.deleteEmbedded Side.shop "i1"
           else Op.updateQuantity Side.shop "i1"
             ((⟨"i1", "Rope", "loot", none, 5, 1, some "gp"⟩ : Item).quantity - 2)]) ∧
    ((transferItem ⟨"i1", "Rope", "loot", none, 5, 1, some "gp"⟩ Side.shop Side.player
        ((⟨⟨zeroCur, []⟩, ⟨zeroCur, [⟨"i1", "Rope", "loot", none, 5, 1, some "gp"⟩]⟩⟩ :
          World).itemsOf Side.player) 2).foldl World.applyOp
        ⟨⟨zeroCur, []⟩, ⟨zeroCur, [⟨"i1", "Rope", "loot", none, 5, 1, some "gp"⟩]⟩⟩).itemsOf
        Side.shop =
      (if (⟨"i1", "Rope", "loot", none, 5, 1, some "gp"⟩ : Item).quantity ≤ 2 then
        ((⟨⟨zeroCur, []⟩, ⟨zeroCur, [⟨"i1", "Rope", "loot", none, 5, 1, some "gp"⟩]⟩⟩ :
          World).itemsOf Side.shop).filter fun i => !(i.id == "i1")
       else ((⟨⟨zeroCur, []⟩, ⟨zeroCur, [⟨"i1", "Rope", "loot", none, 5, 1, some "gp"⟩]⟩⟩ :
          World).itemsOf Side.shop).map fun i =>
         if i.id == "i1" then
           { i with quantity := (⟨"i1", "Rope", "loot", none, 5, 1, some "gp"⟩ : Item).quantity - 2 }
         else i) :=
  transferItem_source_after_dest
    ⟨⟨zeroCur, []⟩, ⟨zeroCur, [⟨"i1", "Rope", "loot", none, 5, 1, some "gp"⟩]⟩⟩
    ⟨"i1", "Rope", "loot", none, 5, 1, some "gp"⟩ Side.shop Side.player 2 (by decide)

/-- C7 counterexample: a basket offering 2 of a 5-available item,
toggled off and toggled back on with the quantity prompt resolving to
1, ends with the item offered at quantity 1 — not the prior content. -/
theorem toggleItem_not_involutive_cex :
    toggleItem (toggleItem [⟨⟨"i1", "Rope", "loot", none, 5, 1, some "gp"⟩, 2⟩]
        ⟨"i1", "Rope", "loot", none, 5, 1, some "gp"⟩ (some 1))
      ⟨"i1", "Rope", "loot", none, 5, 1, some "gp"⟩ (some 1) ≠
      [⟨⟨"i1", "Rope", "loot", none, 5, 1, some "gp"⟩, 2⟩] := by
  decide

/-- C7 amended: toggleItem is its own inverse for an item identity not
currently in the basket whose first toggle actually adds it (available
quantity not above 1, or the quantity prompt resolved to a positive
amount); re-toggling an item that was already offered removes it and
then re-adds it with the freshly resolved prompt quantity, which need
not equal the previously offered quantity. -/
theorem toggleItem_inverse_of_add (b : List TradeEntry) (item : Item) (p p2 : Option ℚ)
    (habs : (b.any fun e => e.item.id == item.id) = false)
    (hadds : 1 < item.quantity → ∃ qv, p = some qv ∧ 0 < qv) :
    toggleItem (toggleItem b item p) item p2 = b := by
  have hall : ∀ e ∈ b, (e.item.id == item.id) = false := by
    intro e he
    simpa using (List.any_eq_false.mp habs) e he
  have hfilter : (b.filter fun e => !(e.item.id == item.id)) = b := by
    apply List.filter_eq_self.mpr
    intro e he
    simp [hall e he]
  obtain ⟨q1, hq1⟩ : ∃ q1, toggleItem b item p = b ++ [⟨item, q1⟩] := by
    unfold toggleItem
    rw [habs]
    by_cases hmax : 1 < item.quantity
    · obtain ⟨qv, hp, hqv⟩ := hadds hmax
      rw [if_pos hmax, hp]
      exact ⟨qv, by simp [not_le.mpr hqv]⟩
    · rw [if_neg hmax]
      exact ⟨1, by simp⟩
  rw [hq1]
  have hany : ((b ++ [(⟨item, q1⟩ : TradeEntry)]).any fun e => e.item.id == item.id)
      = true := by
    simp [List.any_append]
  have hres : toggleItem (b ++ [(⟨item, q1⟩ : TradeEntry)]) item p2 =
      (b ++ [(⟨item, q1⟩ : TradeEntry)]).filter fun e => !(e.item.id == item.id) := by
    unfold toggleItem
    rw [hany]
    simp
  rw [hres, List.filter_append]
  simp [hfilter]

/-- Witness for C7: adding 3 Rope to a basket that does not contain it
and toggling again restores the basket. -/
theorem toggleItem_inverse_of_add_witness :
    toggleItem (toggleItem [⟨⟨"i9", "Torch", "loot", none, 1, 1, some "gp"⟩, 1⟩]
        ⟨"i1", "Rope", "loot", none, 5, 1, some "gp"⟩ (some 3))
      ⟨"i1", "Rope", "loot", none, 5, 1, some "gp"⟩ none =
      [⟨⟨"i9", "Torch", "loot", none, 1, 1, some "gp"⟩, 1⟩] :=
  toggleItem_inverse_of_add _ _ _ _ (by decide) fun _ => ⟨3, rfl, by norm_num⟩

end IronicShop
